import Mathlib

/-!
Shallow embedding of the item-versioning core of `src/item.rs` (the sfrs
encrypted-note sync backend): the `Item` / `SyncItem` data model, the
SQLite-backed store (`items` relation with an AUTOINCREMENT primary key,
per the comment on `Item.id` in the source), and the four operations
`items_of_user`, `find_item_by_uuid`, `get_current_max_id`, `items_insert`.

Machine integers `i64`/`i32` are modelled as `Int`; none of the operations
performs arithmetic that could overflow in practice (the id counter only
increments), so no modular reduction is applied.
-/

namespace Sfrs

/-- `ItemOpError(pub String)` from `src/item.rs`.  Every diesel error in the
source is mapped to `ItemOpError("Database error")` via `map_err`. -/
structure ItemOpError where
  msg : String
deriving Repr, DecidableEq

/-- The `Item` record of the `items` relation (`#[derive(Queryable)] struct Item`).
`id` is the AUTOINCREMENT primary key used as a version marker. -/
structure Item where
  id : Int
  owner : Int
  uuid : String
  content : Option String
  content_type : String
  enc_item_key : Option String
  deleted : Bool
  created_at : String
  updated_at : Option String
deriving Repr, DecidableEq

/-- The wire-level `SyncItem` (no `id`, no `owner`). -/
structure SyncItem where
  uuid : String
  content : Option String
  content_type : String
  enc_item_key : Option String
  deleted : Bool
  created_at : String
  updated_at : Option String
deriving Repr, DecidableEq

/-- Modelled from the spec: the `User` identity type (`user.rs` is not part of
the shown sources); §6 requires only "an integer owner identifier". -/
structure User where
  id : Int
deriving Repr, DecidableEq

/-- Modelled from the spec and the comment on `Item.id`: the storage handle is
a transactional relational store whose `items` table assigns each inserted row
a fresh AUTOINCREMENT id, strictly larger than every id ever assigned,
never reused even after deletes.  `rows` is the table content in insertion
order (which, for this table, is ascending id order); `nextId` is the
AUTOINCREMENT counter — deleting rows never decreases it. -/
structure Db where
  rows : List Item
  nextId : Int
deriving Repr, DecidableEq

/-- Well-formedness of the storage state: every stored id was assigned by the
counter, hence is below the next id to be handed out. -/
def Db.Wf (db : Db) : Prop :=
  ∀ r ∈ db.rows, r.id < db.nextId

instance (db : Db) : Decidable db.Wf := by
  unfold Db.Wf; infer_instance

/-- The filter of `items_insert`'s lookup and delete:
`items.filter(uuid.eq(&it.uuid).and(owner.eq(u.id)))`. -/
def keyMatch (uu : String) (ow : Int) (r : Item) : Bool :=
  r.uuid == uu && r.owner == ow

/-- The filter of `find_item_by_uuid`:
`items.filter(owner.eq(u.id).and(uuid.eq(i)))`. -/
def findMatch (ow : Int) (uu : String) (r : Item) : Bool :=
  r.owner == ow && r.uuid == uu

/-- Insertion (by ascending `id`) used to model the SQL `ORDER BY id ASC`. -/
def insertById (r : Item) : List Item → List Item
  | [] => [r]
  | x :: xs => if r.id ≤ x.id then r :: x :: xs else x :: insertById r xs

/-- Sort a result set ascending by `id`: the `stmt.order(id.asc())` clause. -/
def sortByIdAsc : List Item → List Item
  | [] => []
  | r :: rs => insertById r (sortByIdAsc rs)

/-- `SELECT max(id) ... ` over a filtered row set: `NULL` (here `none`) on an
empty set, otherwise the maximum id. -/
def maxId : List Item → Option Int
  | [] => none
  | r :: rs =>
    match maxId rs with
    | none => some r.id
    | some m => some (max r.id m)

/-- The combined `WHERE` clause built by `items_of_user`:
`owner.eq(u.id)`, plus `id.gt(since_id)` / `id.le(max_id)` when those
options are present. -/
def listPred (u : User) (since_id max_id : Option Int) (r : Item) : Bool :=
  r.owner == u.id
    && (match since_id with | some s => decide (s < r.id) | none => true)
    && (match max_id with | some m => decide (r.id ≤ m) | none => true)

/-- `SyncItem::items_of_user` from `src/item.rs`: filter the `items` relation
by the combined `WHERE` clause, order by `id ASC`, and apply the `LIMIT` when
present.  In the generated SQL the `LIMIT` applies after `WHERE` and
`ORDER BY` regardless of diesel builder call order, hence last here.  The
`i64` limit is bound into SQL `LIMIT` unchecked; SQLite treats a negative
`LIMIT` as "no upper bound", so a negative limit returns the whole result
set, and only a non-negative one truncates. -/
def items_of_user (db : Db) (u : User) (since_id max_id limit : Option Int) :
    Except ItemOpError (List Item) :=
  let base := db.rows.filter (listPred u since_id max_id)
  let sorted := sortByIdAsc base
  .ok (match limit with
    | some l => if l < 0 then sorted else sorted.take l.toNat
    | none => sorted)

/-- `SyncItem::find_item_by_uuid` from `src/item.rs`.
`.first::<Item>(db)` yields the first matching row, or diesel's `NotFound`
error when no row matches; `map_err(|_| "Database error".into())` collapses
every error — `NotFound` included — to `ItemOpError("Database error")`. -/
def find_item_by_uuid (db : Db) (u : User) (i : String) :
    Except ItemOpError Item :=
  match (db.rows.filter (findMatch u.id i)).head? with
  | some r => .ok r
  | none => .error ⟨"Database error"⟩

/-- `SyncItem::get_current_max_id` from `src/item.rs`:
`items.filter(owner.eq(u.id)).select(max(id)).first::<Option<i64>>(db)`.
The aggregate always produces exactly one row, so the pure model never
reaches the error path. -/
def get_current_max_id (db : Db) (u : User) :
    Except ItemOpError (Option Int) :=
  .ok (maxId (db.rows.filter fun r => r.owner == u.id))

/-- The `InsertItem` row built by `items_insert`, as stored: the engine
assigns it `id = db.nextId`; `content` and `enc_item_key` are forced to
`None` when `it.deleted`. -/
def mkInsertRow (nid : Int) (u : User) (it : SyncItem) : Item :=
  { id := nid
    owner := u.id
    uuid := it.uuid
    content := if it.deleted then none else it.content
    content_type := it.content_type
    enc_item_key := if it.deleted then none else it.enc_item_key
    deleted := it.deleted
    created_at := it.created_at
    updated_at := it.updated_at }

/-- `SyncItem::items_insert` from `src/item.rs`, sequential (no interleaving,
no storage faults) semantics.  Steps, as in the source: load the rows
matching `(uuid, owner)`; if non-empty, delete by the same filter; insert the
new row (AUTOINCREMENT assigns `db.nextId`); finally — after dropping the
write lock — read the marker back through `find_item_by_uuid`.
Returns the result together with the storage state the call leaves behind. -/
def items_insert (db : Db) (u : User) (it : SyncItem) :
    Except ItemOpError Int × Db :=
  let orig := db.rows.filter (keyMatch it.uuid u.id)
  let db1 :=
    if orig.isEmpty then db
    else { db with rows := db.rows.filter fun r => !keyMatch it.uuid u.id r }
  let db2 : Db :=
    { rows := db1.rows ++ [mkInsertRow db1.nextId u it]
      nextId := db1.nextId + 1 }
  ((find_item_by_uuid db2 u it.uuid).map (·.id), db2)

/-!
Fault-injected semantics.  Each primitive storage operation (`load`,
`delete`, `execute` of the insert, the `first` of a lookup) may fail with a
diesel error, which the source maps to `ItemOpError("Database error")`.
A schedule of booleans says, per storage operation in program order, whether
that operation faults; an exhausted schedule means no further faults.
-/

/-- Pop the next fault flag from a schedule (no flag left = no fault). -/
def nextFault : List Bool → Bool × List Bool
  | [] => (false, [])
  | b :: bs => (b, bs)

/-- `find_item_by_uuid` under fault injection: its single storage operation
(the `first` select) either faults or behaves as in the pure model.  Note the
no-match case and the fault case produce the very same error value. -/
def find_item_by_uuidF (db : Db) (u : User) (i : String) (fs : List Bool) :
    Except ItemOpError Item × List Bool :=
  let (f, fs1) := nextFault fs
  if f then (.error ⟨"Database error"⟩, fs1)
  else (find_item_by_uuid db u i, fs1)

/-- `items_insert` under fault injection, following the source's operation
order: (1) the lookup `load`; (2) the `delete` — issued only when the lookup
returned rows; (3) the insert `execute`; (4) the read-back
`find_item_by_uuid`, issued after `std::mem::drop(_lock)` released the write
lock.  A failed delete aborts before the insert; a failed insert leaves the
delete applied; a failed read-back leaves both the delete and the insert
applied yet reports an error.  Returns result, left-behind storage state and
remaining schedule. -/
def items_insertF (db : Db) (u : User) (it : SyncItem) (fs : List Bool) :
    Except ItemOpError Int × Db × List Bool :=
  let (f1, fs1) := nextFault fs
  if f1 then (.error ⟨"Database error"⟩, db, fs1) else
  let orig := db.rows.filter (keyMatch it.uuid u.id)
  if orig.isEmpty then
    let (f3, fs3) := nextFault fs1
    if f3 then (.error ⟨"Database error"⟩, db, fs3) else
    let db2 : Db :=
      { rows := db.rows ++ [mkInsertRow db.nextId u it], nextId := db.nextId + 1 }
    let (res, fs4) := find_item_by_uuidF db2 u it.uuid fs3
    (res.map (·.id), db2, fs4)
  else
    let (f2, fs2) := nextFault fs1
    if f2 then (.error ⟨"Database error"⟩, db, fs2) else
    let db1 : Db :=
      { db with rows := db.rows.filter fun r => !keyMatch it.uuid u.id r }
    let (f3, fs3) := nextFault fs2
    if f3 then (.error ⟨"Database error"⟩, db1, fs3) else
    let db2 : Db :=
      { rows := db1.rows ++ [mkInsertRow db1.nextId u it], nextId := db1.nextId + 1 }
    let (res, fs4) := find_item_by_uuidF db2 u it.uuid fs3
    (res.map (·.id), db2, fs4)

/-!
Interleaving semantics for concurrent upserts.

Modelled from the spec (§5): `lock_db_read!` / `lock_db_write!` (defined
outside the shown sources) implement a process-wide reader/writer lock, so a
region executed under one write-lock acquisition is atomic with respect to
every other locked region, and a select under a read-lock acquisition is
atomic with respect to writers.  `items_insert` in `src/item.rs` takes the
lock twice: the existence lookup runs under `lock_db_read!` which is released
when the `and_then` closure returns, and only then is `lock_db_write!`
acquired for the delete + insert (held until `std::mem::drop(_lock)`).
An upsert thread therefore consists of two atomic sections, between which
other threads may run; the trailing read-back does not modify the store and
is irrelevant to row-count invariants, so it is not modelled as a step.
-/

/-- Progress of one thread running `items_insert`. -/
inductive Phase where
  /-- Before the read-locked existence lookup. -/
  | ready : Phase
  /-- Lookup done (read lock released); `orig` is the loaded row set. -/
  | looked (orig : List Item) : Phase
  /-- Write-locked delete + insert done (write lock released). -/
  | written : Phase
deriving Repr, DecidableEq

/-- A thread executing `items_insert db u it`, with its progress. -/
structure Thread where
  user : User
  item : SyncItem
  phase : Phase
deriving Repr, DecidableEq

/-- Run the next atomic section of a thread against the store. -/
def upsertStep (db : Db) (t : Thread) : Db × Thread :=
  match t.phase with
  | .ready =>
    (db, { t with phase := .looked (db.rows.filter (keyMatch t.item.uuid t.user.id)) })
  | .looked orig =>
    let db1 :=
      if orig.isEmpty then db
      else { db with rows := db.rows.filter fun r => !keyMatch t.item.uuid t.user.id r }
    ({ rows := db1.rows ++ [mkInsertRow db1.nextId t.user t.item]
       nextId := db1.nextId + 1 },
     { t with phase := .written })
  | .written => (db, t)

/-- Interleave two upsert threads under a schedule: `false` steps thread `a`,
`true` steps thread `b`. -/
def runSched (db : Db) (a b : Thread) : List Bool → Db × Thread × Thread
  | [] => (db, a, b)
  | s :: rest =>
    if s then
      let (db1, b1) := upsertStep db b
      runSched db1 a b1 rest
    else
      let (db1, a1) := upsertStep db a
      runSched db1 a1 b rest

/-- Live rows (physically present, regardless of tombstone flag would be all
rows; the races of interest insert non-tombstones) for a key. -/
def liveRowsFor (db : Db) (ow : Int) (uu : String) : List Item :=
  db.rows.filter (keyMatch uu ow)

/-- The ordering `ORDER BY id ASC` sorts by. -/
def idLe (a b : Item) : Prop := a.id ≤ b.id

/-- Run a sequence of sequential upserts by one user (as `items_insert` runs
them), returning the final storage state. -/
def upsertAll (db : Db) (u : User) : List SyncItem → Db
  | [] => db
  | it :: rest => upsertAll (items_insert db u it).2 u rest

/-- Run a sequence of sequential upserts across arbitrary users and items,
collecting the markers returned by the successful calls in completion
order. -/
def runUpserts : Db → List (User × SyncItem) → List Int × Db
  | db, [] => ([], db)
  | db, (u, it) :: rest =>
    match items_insert db u it with
    | (.ok m, db1) => (m :: (runUpserts db1 rest).1, (runUpserts db1 rest).2)
    | (.error _, db1) => runUpserts db1 rest

/-! ### Concrete fixtures used to evaluate the operations on closed inputs -/

/-- A stored row of owner 1 under uuid `"b"`. -/
def rowB : Item := ⟨1, 1, "b", none, "t", none, false, "c", none⟩

/-- A store holding `rowB`, counter at 2. -/
def dbOne : Db := ⟨[rowB], 2⟩

/-- An upsert input for uuid `"a"`, not tombstoned. -/
def itA1 : SyncItem := ⟨"a", some "v1", "t", some "k1", false, "c", none⟩

/-- An upsert input for uuid `"a"`, tombstoned but still carrying a payload
and a wrapped key. -/
def itA2 : SyncItem := ⟨"a", some "v2", "t", some "k2", true, "c", none⟩

/-- A second stored row of owner 1, under uuid `"a"`. -/
def rowA : Item := ⟨2, 1, "a", some "v", "t", none, false, "c", none⟩

/-- A store holding two rows of owner 1, counter at 3. -/
def dbTwo : Db := ⟨[rowB, rowA], 3⟩

/-- A row of owner 2 stored under the same uuid `"b"` as `rowB`. -/
def rowC : Item := ⟨3, 2, "b", some "w", "t", none, false, "c", none⟩

/-- A store holding rows of two owners whose uuids collide. -/
def dbMix : Db := ⟨[rowB, rowC], 4⟩

/-! ### Helper lemmas -/

lemma filter_not_of_filter_eq_nil {α : Type} {l : List α} {p : α → Bool}
    (h : l.filter p = []) : (l.filter fun a => !p a) = l := by
  rw [List.filter_eq_self]
  intro a ha
  have := List.filter_eq_nil_iff.mp h a ha
  simpa using this

lemma findMatch_eq_keyMatch (ow : Int) (uu : String) (r : Item) :
    findMatch ow uu r = keyMatch uu ow r := by
  simp [findMatch, keyMatch, Bool.and_comm]

lemma keyMatch_mkInsertRow (nid : Int) (u : User) (it : SyncItem) :
    keyMatch it.uuid u.id (mkInsertRow nid u it) = true := by
  simp [keyMatch, mkInsertRow]

/-- Characterisation of the sequential upsert: it always succeeds, returns the
id the AUTOINCREMENT counter assigned to the freshly inserted row, and leaves
the store holding the previous rows minus the key's old rows plus the new
row. -/
lemma items_insert_spec (db : Db) (u : User) (it : SyncItem) :
    items_insert db u it =
      (.ok db.nextId,
       { rows := (db.rows.filter fun r => !keyMatch it.uuid u.id r)
                   ++ [mkInsertRow db.nextId u it]
         nextId := db.nextId + 1 }) := by
  show (let orig := db.rows.filter (keyMatch it.uuid u.id)
        let db1 :=
          if orig.isEmpty then db
          else { db with rows := db.rows.filter fun r => !keyMatch it.uuid u.id r }
        let db2 : Db :=
          { rows := db1.rows ++ [mkInsertRow db1.nextId u it]
            nextId := db1.nextId + 1 }
        ((find_item_by_uuid db2 u it.uuid).map (·.id), db2)) = _
  simp only
  have hfind : ∀ rows0 : List Item,
      rows0.filter (keyMatch it.uuid u.id) = [] →
      find_item_by_uuid
        { rows := rows0 ++ [mkInsertRow db.nextId u it], nextId := db.nextId + 1 }
        u it.uuid = .ok (mkInsertRow db.nextId u it) := by
    intro rows0 h0
    unfold find_item_by_uuid
    have hf : ∀ r : Item, findMatch u.id it.uuid r = keyMatch it.uuid u.id r :=
      findMatch_eq_keyMatch u.id it.uuid
    simp only [List.filter_append, List.filter_congr (fun r _ => hf r)] at *
    rw [h0]
    simp [List.filter, keyMatch_mkInsertRow]
  by_cases hempty : (db.rows.filter (keyMatch it.uuid u.id)).isEmpty
  · have hnil : db.rows.filter (keyMatch it.uuid u.id) = [] :=
      List.isEmpty_iff.mp hempty
    have hid : (db.rows.filter fun r => !keyMatch it.uuid u.id r) = db.rows :=
      filter_not_of_filter_eq_nil hnil
    rw [if_pos hempty, hfind db.rows hnil, hid]
    rfl
  · have hclean : ((db.rows.filter fun r => !keyMatch it.uuid u.id r).filter
        (keyMatch it.uuid u.id)) = [] := by
      rw [List.filter_filter]
      simp
    rw [if_neg hempty, hfind _ hclean]
    rfl

lemma insertById_perm (r : Item) (l : List Item) :
    (insertById r l).Perm (r :: l) := by
  induction l with
  | nil => exact List.Perm.refl _
  | cons y ys ih =>
    by_cases h : r.id ≤ y.id
    · simp only [insertById, if_pos h]
      exact List.Perm.refl _
    · simp only [insertById, if_neg h]
      exact (ih.cons y).trans (List.Perm.swap r y ys)

lemma sortByIdAsc_perm (l : List Item) : (sortByIdAsc l).Perm l := by
  induction l with
  | nil => exact List.Perm.refl _
  | cons y ys ih =>
    exact (insertById_perm y (sortByIdAsc ys)).trans (ih.cons y)

lemma mem_sortByIdAsc {x : Item} {l : List Item} :
    x ∈ sortByIdAsc l ↔ x ∈ l :=
  (sortByIdAsc_perm l).mem_iff

lemma head?_insertById (r : Item) (l : List Item) :
    (insertById r l).head? = some r ∨ (insertById r l).head? = l.head? := by
  cases l with
  | nil => left; rfl
  | cons y ys =>
    by_cases h : r.id ≤ y.id
    · left; simp [insertById, h]
    · right; simp [insertById, h]

lemma chain'_insertById (r : Item) (l : List Item) (h : l.Chain' idLe) :
    (insertById r l).Chain' idLe := by
  induction l with
  | nil => simp [insertById]
  | cons y ys ih =>
    by_cases hle : r.id ≤ y.id
    · simp only [insertById, if_pos hle]
      exact List.chain'_cons.mpr ⟨hle, h⟩
    · simp only [insertById, if_neg hle]
      have htail : ys.Chain' idLe := (List.chain'_cons'.mp h).2
      refine List.chain'_cons'.mpr ⟨?_, ih htail⟩
      intro z hz
      rcases head?_insertById r ys with hh | hh
      · rw [hh] at hz
        cases hz
        exact le_of_lt (lt_of_not_le hle)
      · rw [hh] at hz
        exact (List.chain'_cons'.mp h).1 z hz

lemma sortByIdAsc_chain' (l : List Item) : (sortByIdAsc l).Chain' idLe := by
  induction l with
  | nil => simp [sortByIdAsc]
  | cons y ys ih => exact chain'_insertById y (sortByIdAsc ys) ih

lemma maxId_eq_none {l : List Item} : maxId l = none ↔ l = [] := by
  cases l with
  | nil => simp [maxId]
  | cons x xs =>
    simp only [maxId]
    cases maxId xs <;> simp

lemma maxId_spec {l : List Item} {m : Int} (h : maxId l = some m) :
    (∀ r ∈ l, r.id ≤ m) ∧ ∃ r ∈ l, r.id = m := by
  induction l generalizing m with
  | nil => cases h
  | cons x xs ih =>
    simp only [maxId] at h
    cases hx : maxId xs with
    | none =>
      rw [hx] at h
      injection h with h
      have hxs : xs = [] := maxId_eq_none.mp hx
      subst hxs
      subst h
      refine ⟨?_, ⟨x, List.mem_cons_self x [], rfl⟩⟩
      intro r hr
      cases hr with
      | head => exact le_refl _
      | tail _ hmem => cases hmem
    | some mx =>
      rw [hx] at h
      injection h with h
      subst h
      obtain ⟨hub, r0, hr0, hr0id⟩ := ih hx
      constructor
      · intro r hr
        cases hr with
        | head => exact le_max_left _ _
        | tail _ hmem => exact le_trans (hub r hmem) (le_max_right _ _)
      · rcases max_choice x.id mx with hc | hc
        · exact ⟨x, List.mem_cons_self x xs, hc.symm⟩
        · exact ⟨r0, List.mem_cons_of_mem x hr0, by rw [hc, hr0id]⟩

/-- The upsert preserves store well-formedness, and the new counter strictly
dominates the returned marker. -/
lemma items_insert_wf {db : Db} (u : User) (it : SyncItem) (hwf : db.Wf) :
    ((items_insert db u it).2).Wf := by
  rw [items_insert_spec]
  intro r hr
  simp only at hr ⊢
  rcases List.mem_append.mp hr with hold | hnew
  · exact lt_trans (hwf r (List.mem_of_mem_filter hold)) (lt_add_one _)
  · cases List.mem_singleton.mp hnew
    exact lt_add_one _

lemma upsertAll_append (db : Db) (u : User) (l1 l2 : List SyncItem) :
    upsertAll db u (l1 ++ l2) = upsertAll (upsertAll db u l1) u l2 := by
  induction l1 generalizing db with
  | nil => rfl
  | cons it rest ih =>
    simp only [List.cons_append, upsertAll]
    exact ih _

/-- The combined `WHERE` clause of `items_of_user`, unfolded to a
proposition. -/
lemma listPred_iff (u : User) (since_id max_id : Option Int)
    (r : Item) :
    listPred u since_id max_id r = true
    ↔ r.owner = u.id
      ∧ (∀ s, since_id = some s → s < r.id)
      ∧ (∀ m, max_id = some m → r.id ≤ m) := by
  cases since_id <;> cases max_id <;>
    simp [listPred, Bool.and_eq_true, and_assoc]

/-- `items_of_user` with no limit, unfolded. -/
lemma items_of_user_limit_none (db : Db) (u : User)
    (since_id max_id : Option Int) :
    items_of_user db u since_id max_id none
      = .ok (sortByIdAsc (db.rows.filter (listPred u since_id max_id))) := rfl

/-- `items_of_user` with a limit, unfolded: a negative SQL `LIMIT` does not
bound the result, a non-negative one truncates it. -/
lemma items_of_user_some_eq (db : Db) (u : User)
    (since_id max_id : Option Int) (l : Int) :
    items_of_user db u since_id max_id (some l)
      = .ok (if l < 0
          then sortByIdAsc (db.rows.filter (listPred u since_id max_id))
          else (sortByIdAsc (db.rows.filter (listPred u since_id max_id))).take
            l.toNat) := rfl

/-- Soundness half of the list semantics: every returned row is a stored row
of the owner satisfying both cursor bounds. -/
lemma mem_of_items_of_user {db : Db} {u : User}
    {since_id max_id limit : Option Int} {out : List Item} {x : Item}
    (h : items_of_user db u since_id max_id limit = .ok out) (hx : x ∈ out) :
    x ∈ db.rows ∧ x.owner = u.id
      ∧ (∀ s, since_id = some s → s < x.id)
      ∧ (∀ m, max_id = some m → x.id ≤ m) := by
  have hx' : x ∈ sortByIdAsc (db.rows.filter (listPred u since_id max_id)) := by
    cases limit with
    | none =>
      rw [items_of_user_limit_none] at h
      cases Except.ok.inj h
      exact hx
    | some l =>
      rw [items_of_user_some_eq] at h
      have hinj := Except.ok.inj h
      by_cases hneg : l < 0
      · rw [← hinj, if_pos hneg] at hx
        exact hx
      · rw [← hinj, if_neg hneg] at hx
        exact List.mem_of_mem_take hx
  have hmem := mem_sortByIdAsc.mp hx'
  exact ⟨List.mem_of_mem_filter hmem,
    (listPred_iff u since_id max_id x).mp (List.of_mem_filter hmem)⟩

/-! ### Claim theorems -/

/-- C7: for every owner and every `SyncItem` with `deleted = true`, even when
the input carries non-empty `content` and `enc_item_key`, the row stored by
the upsert has `content` absent and `enc_item_key` absent (every row for that
`(owner, uuid)` in the resulting store does). -/
theorem claim_C7_tombstone_stripping (db : Db) (u : User) (it : SyncItem)
    (m : Int) (db' : Db) (hdel : it.deleted = true)
    (h : items_insert db u it = (.ok m, db')) :
    ∀ r ∈ db'.rows, r.uuid = it.uuid → r.owner = u.id →
      r.content = none ∧ r.enc_item_key = none ∧ r.deleted = true := by
  rw [items_insert_spec] at h
  injection h with h1 h2
  subst h2
  intro r hr huu how
  simp only at hr
  rcases List.mem_append.mp hr with hold | hnew
  · exact absurd (List.of_mem_filter hold) (by simp [keyMatch, huu, how])
  · cases List.mem_singleton.mp hnew
    simp [mkInsertRow, hdel]

/-- C4: a successful sequential upsert returns exactly the marker the storage
engine assigned to the row this upsert inserted (the row appended to the
table, whose id is the returned marker), and that marker belongs to no other
row: no pre-existing row carries it. -/
theorem claim_C4_returns_inserted_marker (db : Db) (u : User) (it : SyncItem)
    (m : Int) (db' : Db) (hwf : db.Wf)
    (h : items_insert db u it = (.ok m, db')) :
    db'.rows.getLast? = some (mkInsertRow m u it)
    ∧ (mkInsertRow m u it).id = m
    ∧ ∀ r ∈ db.rows, r.id ≠ m := by
  rw [items_insert_spec] at h
  injection h with h1 h2
  injection h1 with h1
  subst h2
  subst h1
  refine ⟨?_, rfl, ?_⟩
  · exact List.getLast?_concat _
  · intro r hr
    exact ne_of_lt (hwf r hr)

/-- C9: `items_of_user` and `find_item_by_uuid` invoked for owner `u` only
ever return rows whose `owner` field is `u.id` — never another owner's rows,
whatever the stored uuids are. -/
theorem claim_C9_owner_isolation (db : Db) (u : User)
    (since_id max_id limit : Option Int) (out : List Item) (i : String)
    (r : Item) :
    (items_of_user db u since_id max_id limit = .ok out →
      ∀ x ∈ out, x.owner = u.id)
    ∧ (find_item_by_uuid db u i = .ok r → r.owner = u.id) := by
  constructor
  · intro h x hx
    exact (mem_of_items_of_user h hx).2.1
  · intro h
    unfold find_item_by_uuid at h
    cases hh : (db.rows.filter (findMatch u.id i)).head? with
    | none => rw [hh] at h; cases h
    | some r0 =>
      rw [hh] at h
      cases h
      have : r ∈ db.rows.filter (findMatch u.id i) :=
        List.mem_of_mem_head? (hh ▸ rfl)
      have := List.of_mem_filter this
      simp only [findMatch, Bool.and_eq_true, beq_iff_eq] at this
      exact this.1

/-- C6 (amended): a successful `items_of_user` call returns exactly the
owner's stored rows within the cursor bounds — soundness (every returned row
is a stored row of the owner with `since_id < id` and `id ≤ max_id` where
those bounds are present), ascending `id` order, completeness when no limit
is given, a length cap of `limit` rows when the limit is non-negative, no
cap at all for a negative limit (SQLite reads a negative `LIMIT` as
unbounded, so the full result comes back), and, with any limit, a prefix of
the unlimited result (the pagination property). -/
theorem claim_C6_list_semantics (db : Db) (u : User)
    (since_id max_id limit : Option Int) (out : List Item)
    (h : items_of_user db u since_id max_id limit = .ok out) :
    (∀ r ∈ out, r ∈ db.rows ∧ r.owner = u.id
      ∧ (∀ s, since_id = some s → s < r.id)
      ∧ (∀ m, max_id = some m → r.id ≤ m))
    ∧ out.Chain' idLe
    ∧ (limit = none → ∀ r ∈ db.rows, r.owner = u.id →
        (∀ s, since_id = some s → s < r.id) →
        (∀ m, max_id = some m → r.id ≤ m) → r ∈ out)
    ∧ (∀ l, limit = some l → 0 ≤ l → out.length ≤ l.toNat)
    ∧ (∀ l, limit = some l → l < 0 →
        items_of_user db u since_id max_id none = .ok out)
    ∧ (∃ full rest, items_of_user db u since_id max_id none = .ok full
        ∧ out ++ rest = full) := by
  refine ⟨fun r hr => mem_of_items_of_user h hr, ?_, ?_, ?_, ?_, ?_⟩
  · cases limit with
    | none =>
      rw [items_of_user_limit_none] at h
      cases Except.ok.inj h
      exact sortByIdAsc_chain' _
    | some l =>
      rw [items_of_user_some_eq] at h
      have hinj := Except.ok.inj h
      by_cases hneg : l < 0
      · rw [← hinj, if_pos hneg]
        exact sortByIdAsc_chain' _
      · rw [← hinj, if_neg hneg]
        exact (sortByIdAsc_chain' _).take _
  · intro hnone r hrmem hown hs hm
    subst hnone
    rw [items_of_user_limit_none] at h
    cases Except.ok.inj h
    exact mem_sortByIdAsc.mpr (List.mem_filter.mpr
      ⟨hrmem, (listPred_iff u since_id max_id r).mpr ⟨hown, hs, hm⟩⟩)
  · intro l hl hpos
    subst hl
    rw [items_of_user_some_eq] at h
    have hinj := Except.ok.inj h
    rw [← hinj, if_neg (not_lt.mpr hpos), List.length_take]
    exact min_le_left _ _
  · intro l hl hneg
    subst hl
    rw [items_of_user_some_eq] at h
    have hinj := Except.ok.inj h
    rw [← hinj, if_pos hneg]
    exact items_of_user_limit_none db u since_id max_id
  · cases limit with
    | none => exact ⟨out, [], h, List.append_nil out⟩
    | some l =>
      rw [items_of_user_some_eq] at h
      have hinj := Except.ok.inj h
      by_cases hneg : l < 0
      · refine ⟨_, [], items_of_user_limit_none db u since_id max_id, ?_⟩
        rw [← hinj, if_pos hneg, List.append_nil]
      · refine ⟨_,
          (sortByIdAsc (db.rows.filter (listPred u since_id max_id))).drop
            l.toNat,
          items_of_user_limit_none db u since_id max_id, ?_⟩
        rw [← hinj, if_neg hneg]
        exact List.take_append_drop _ _

/-- C6 (counterexample): the frozen claim caps the result at `limit` rows
for *every* present limit.  At `limit = -1` on a store with one matching
row, the call returns that row — one row is not "capped at -1 rows" (neither
as an integer bound nor as `Int.toNat (-1) = 0`). -/
theorem claim_C6_counterexample :
    items_of_user dbOne ⟨1⟩ none none (some (-1)) = .ok [rowB]
    ∧ ¬ (([rowB].length : Int) ≤ -1)
    ∧ ¬ ([rowB].length ≤ (-1 : Int).toNat) := by
  refine ⟨rfl, by decide, by decide⟩

/-- C3: after a non-empty sequence of sequential upserts all targeting the
same `(owner, uuid)` key (here: uuid `U`, owner `u`), exactly one row for
that key exists in the store, and its fields equal the final upsert's input,
with `content`/`enc_item_key` forced absent when that input was a
tombstone. -/
theorem claim_C3_single_live_row (db : Db) (u : User) (U : String)
    (pre : List SyncItem) (lastIt : SyncItem)
    (hU : ∀ it ∈ pre ++ [lastIt], it.uuid = U) :
    ∃ r, (upsertAll db u (pre ++ [lastIt])).rows.filter (keyMatch U u.id) = [r]
      ∧ r.owner = u.id ∧ r.uuid = lastIt.uuid
      ∧ r.content = (if lastIt.deleted then none else lastIt.content)
      ∧ r.content_type = lastIt.content_type
      ∧ r.enc_item_key = (if lastIt.deleted then none else lastIt.enc_item_key)
      ∧ r.deleted = lastIt.deleted
      ∧ r.created_at = lastIt.created_at
      ∧ r.updated_at = lastIt.updated_at := by
  have hlast : lastIt.uuid = U :=
    hU lastIt (List.mem_append_right _ (List.mem_singleton_self _))
  subst hlast
  rw [upsertAll_append]
  refine ⟨mkInsertRow (upsertAll db u pre).nextId u lastIt, ?_, ?_⟩
  · simp only [upsertAll, items_insert_spec]
    rw [List.filter_append, List.filter_filter]
    simp [keyMatch_mkInsertRow]
  · simp [mkInsertRow]

/-- Each marker handed out by a run of upserts is at least the counter value
the run started from, and the handed-out sequence is strictly increasing. -/
lemma runUpserts_bound (db : Db) (reqs : List (User × SyncItem))
    (hwf : db.Wf) :
    (runUpserts db reqs).1.Chain' (· < ·)
    ∧ ∀ m ∈ (runUpserts db reqs).1, db.nextId ≤ m := by
  induction reqs generalizing db with
  | nil =>
    refine ⟨List.chain'_nil, ?_⟩
    intro m hm
    cases hm
  | cons req rest ih =>
    obtain ⟨u, it⟩ := req
    have hwf1 : Db.Wf ((items_insert db u it).2) := items_insert_wf u it hwf
    rw [items_insert_spec] at hwf1
    simp only [runUpserts, items_insert_spec]
    obtain ⟨hch, hlb⟩ := ih _ hwf1
    constructor
    · refine List.chain'_cons'.mpr ⟨?_, hch⟩
      intro z hz
      have hmem := List.mem_of_mem_head? hz
      have := hlb z hmem
      simp only at this
      omega
    · intro m hm
      rcases List.mem_cons.mp hm with rfl | hm
      · exact le_refl _
      · have := hlb m hm
        simp only at this
        omega

/-- C5: across any sequence of sequential upserts — any owners, any uuids,
with earlier rows deleted and replaced along the way — the markers returned
by the successful calls are strictly increasing in completion order, and no
returned marker reuses the id of any row present when the sequence began. -/
theorem claim_C5_markers_strictly_increase (db : Db)
    (reqs : List (User × SyncItem)) (hwf : db.Wf) :
    (runUpserts db reqs).1.Chain' (· < ·)
    ∧ ∀ m ∈ (runUpserts db reqs).1, ∀ r ∈ db.rows, r.id < m := by
  obtain ⟨hch, hlb⟩ := runUpserts_bound db reqs hwf
  exact ⟨hch, fun m hm r hr => lt_of_lt_of_le (hwf r hr) (hlb m hm)⟩

/-- C8: for an owner with at least one item, listing with
`since_marker = get_current_max_marker(owner)` yields the empty sequence;
after one further upsert for that owner, listing with the same old cursor
returns exactly the newly inserted row. -/
theorem claim_C8_cursor_correctness (db : Db) (u : User) (c : Int)
    (it : SyncItem) (hwf : db.Wf)
    (hc : get_current_max_id db u = .ok (some c)) :
    items_of_user db u (some c) none none = .ok []
    ∧ ∀ m db', items_insert db u it = (.ok m, db') →
        items_of_user db' u (some c) none none = .ok [mkInsertRow m u it] := by
  have hmax : maxId (db.rows.filter fun r => r.owner == u.id) = some c :=
    Except.ok.inj hc
  obtain ⟨hub, r0, hr0mem, hr0id⟩ := maxId_spec hmax
  have hub' : ∀ r ∈ db.rows, r.owner = u.id → r.id ≤ c := by
    intro r hr how
    exact hub r (List.mem_filter.mpr ⟨hr, by simp [how]⟩)
  have hclt : c < db.nextId := by
    have := hwf r0 (List.mem_of_mem_filter hr0mem)
    omega
  have hnil : ∀ l : List Item, (∀ r ∈ l, r ∈ db.rows) →
      l.filter (listPred u (some c) none) = [] := by
    intro l hsub
    apply List.filter_eq_nil_iff.mpr
    intro r hr hpred
    obtain ⟨how, hs, -⟩ := (listPred_iff u (some c) none r).mp hpred
    have h1 := hub' r (hsub r hr) how
    have h2 := hs c rfl
    omega
  constructor
  · rw [items_of_user_limit_none, hnil db.rows (fun r hr => hr)]
    rfl
  · intro m db' h
    rw [items_insert_spec] at h
    injection h with h1 h2
    injection h1 with h1
    subst h1
    subst h2
    rw [items_of_user_limit_none]
    simp only [List.filter_append]
    rw [hnil _ (fun r hr => List.mem_of_mem_filter hr)]
    have hnew : ([mkInsertRow db.nextId u it].filter
        (listPred u (some c) none)) = [mkInsertRow db.nextId u it] := by
      have hp : listPred u (some c) none (mkInsertRow db.nextId u it) = true := by
        apply (listPred_iff u (some c) none _).mpr
        refine ⟨rfl, ?_, ?_⟩
        · intro s hs
          cases hs
          exact hclt
        · intro m0 hm0
          cases hm0
      simp [List.filter, hp]
    rw [hnew]
    rfl

/-- C1 (failing execution): `items_insert` does NOT hold the write guard
across lookup–delete–insert.  Two upserts of the same key `(owner 1, uuid
"a")` on an empty store, interleaved as lookup A, lookup B, write A, write B
(each step an atomic locked section, exactly as the source scopes its
locks), both observe "no existing row" and both insert: the final store
holds two live rows for the one uuid.  The claim says this interleaving is
impossible. -/
theorem claim_C1_race_two_live_rows :
    (liveRowsFor
      (runSched ⟨[], 1⟩
        ⟨⟨1⟩, ⟨"a", some "v1", "text", none, false, "t0", none⟩, .ready⟩
        ⟨⟨1⟩, ⟨"a", some "v2", "text", none, false, "t0", none⟩, .ready⟩
        [false, true, false, true]).1
      1 "a").length = 2 := by
  rfl

/-- C2 (counterexample): the claim says a lookup matching no live row fails
with `NotFound`, an error distinct from `StorageError`.  In the code both
conditions produce the very same value `ItemOpError("Database error")`: here
the no-match lookup on an empty store (no fault injected) and a pure storage
fault on a store that does hold the row return equal errors. -/
theorem claim_C2_counterexample :
    (find_item_by_uuidF ⟨[], 1⟩ ⟨1⟩ "a" []).1
      = (find_item_by_uuidF
          ⟨[⟨1, 1, "a", some "v", "text", none, false, "t", none⟩], 2⟩
          ⟨1⟩ "a" [true]).1 := by
  rfl

/-- C2 (amended): when no row matches `(owner, uuid)`, `find_item_by_uuid`
fails with the single opaque `ItemOpError("Database error")` — the same error
value a storage I/O fault produces; the code exposes no distinct `NotFound`
variant. -/
theorem claim_C2_notfound_not_distinct (db : Db) (u : User) (i : String)
    (h : db.rows.filter (findMatch u.id i) = []) :
    find_item_by_uuid db u i = .error ⟨"Database error"⟩
    ∧ ∀ (db2 : Db) (u2 : User) (i2 : String) (fs : List Bool),
        (find_item_by_uuidF db2 u2 i2 (true :: fs)).1
          = .error ⟨"Database error"⟩ := by
  constructor
  · unfold find_item_by_uuid
    rw [h]
    rfl
  · intro db2 u2 i2 fs
    rfl

/-- Witness for the amended C2 at a concrete store. -/
theorem claim_C2_witness :
    (⟨[], 1⟩ : Db).rows.filter (findMatch (1 : Int) "a") = []
    ∧ find_item_by_uuid ⟨[], 1⟩ ⟨1⟩ "a" = .error ⟨"Database error"⟩ :=
  ⟨rfl, (claim_C2_notfound_not_distinct ⟨[], 1⟩ ⟨1⟩ "a" rfl).1⟩

/-- C10: an error from the upsert does not imply the store is unchanged.
The returned marker comes from a read-back issued after the write lock is
released; on this execution the lookup, delete and insert all succeed — the
old row is gone and the new row is stored — yet the operation reports
`ItemOpError("Database error")` because that final read-back faults. -/
theorem claim_C10_error_despite_applied_write :
    items_insertF
        ⟨[⟨1, 1, "a", some "v1", "text", none, false, "t0", none⟩], 2⟩
        ⟨1⟩ ⟨"a", some "v2", "text", none, false, "t0", none⟩
        [false, false, false, true]
      = (.error ⟨"Database error"⟩,
         ⟨[⟨2, 1, "a", some "v2", "text", none, false, "t0", none⟩], 3⟩,
         []) := by
  rfl

/-! ### Witnesses: the hypothesised theorems applied at concrete inputs -/

/-- Witness for C3: upsert twice under uuid `"a"` on an empty store; the
second input is a tombstone, and the surviving row is the stripped form of
it. -/
theorem claim_C3_witness :
    (∀ it ∈ [itA1] ++ [itA2], it.uuid = "a")
    ∧ ∃ r, (upsertAll ⟨[], 1⟩ ⟨1⟩ ([itA1] ++ [itA2])).rows.filter
          (keyMatch "a" (1 : Int)) = [r]
        ∧ r.owner = (1 : Int) ∧ r.uuid = itA2.uuid
        ∧ r.content = (if itA2.deleted then none else itA2.content)
        ∧ r.content_type = itA2.content_type
        ∧ r.enc_item_key = (if itA2.deleted then none else itA2.enc_item_key)
        ∧ r.deleted = itA2.deleted
        ∧ r.created_at = itA2.created_at
        ∧ r.updated_at = itA2.updated_at :=
  ⟨by decide, claim_C3_single_live_row ⟨[], 1⟩ ⟨1⟩ "a" [itA1] itA2 (by decide)⟩

/-- Witness for C4: an upsert on `dbOne` returns marker 2, the id of the row
it appended. -/
theorem claim_C4_witness :
    Db.Wf dbOne
    ∧ items_insert dbOne ⟨1⟩ itA1
        = (.ok 2, ⟨[rowB, mkInsertRow 2 ⟨1⟩ itA1], 3⟩)
    ∧ (⟨[rowB, mkInsertRow 2 ⟨1⟩ itA1], 3⟩ : Db).rows.getLast?
        = some (mkInsertRow 2 ⟨1⟩ itA1)
    ∧ (mkInsertRow 2 ⟨1⟩ itA1).id = 2
    ∧ ∀ r ∈ dbOne.rows, r.id ≠ 2 :=
  ⟨by decide, by rfl,
    claim_C4_returns_inserted_marker dbOne ⟨1⟩ itA1 2 _ (by decide) (by rfl)⟩

/-- Witness for C5: two upserts by different owners on `dbOne`. -/
theorem claim_C5_witness :
    Db.Wf dbOne
    ∧ (runUpserts dbOne [(⟨1⟩, itA1), (⟨2⟩, itA2)]).1.Chain' (· < ·)
    ∧ ∀ m ∈ (runUpserts dbOne [(⟨1⟩, itA1), (⟨2⟩, itA2)]).1,
        ∀ r ∈ dbOne.rows, r.id < m :=
  ⟨by decide, claim_C5_markers_strictly_increase dbOne _ (by decide)⟩

/-- Witness for C6: a list call with all of `since`, `max` and `limit` set. -/
theorem claim_C6_witness :
    items_of_user dbTwo ⟨1⟩ (some 0) (some 10) (some 1) = .ok [rowB]
    ∧ [rowB].Chain' idLe :=
  ⟨by rfl,
    (claim_C6_list_semantics dbTwo ⟨1⟩ (some 0) (some 10) (some 1) [rowB]
      (by rfl)).2.1⟩

/-- Witness for C7: a tombstone upsert whose input carries a payload and a
key; the stored row has both absent. -/
theorem claim_C7_witness :
    itA2.deleted = true
    ∧ items_insert ⟨[], 1⟩ ⟨1⟩ itA2
        = (.ok 1, ⟨[mkInsertRow 1 ⟨1⟩ itA2], 2⟩)
    ∧ ∀ r ∈ (⟨[mkInsertRow 1 ⟨1⟩ itA2], 2⟩ : Db).rows, r.uuid = itA2.uuid →
        r.owner = (1 : Int) →
        r.content = none ∧ r.enc_item_key = none ∧ r.deleted = true :=
  ⟨rfl, by rfl,
    claim_C7_tombstone_stripping ⟨[], 1⟩ ⟨1⟩ itA2 1 _ rfl (by rfl)⟩

/-- Witness for C8: on `dbOne` the current max marker is 1, and listing past
it yields nothing. -/
theorem claim_C8_witness :
    Db.Wf dbOne
    ∧ get_current_max_id dbOne ⟨1⟩ = .ok (some 1)
    ∧ items_of_user dbOne ⟨1⟩ (some 1) none none = .ok [] :=
  ⟨by decide, by rfl,
    (claim_C8_cursor_correctness dbOne ⟨1⟩ 1 itA1 (by decide) (by rfl)).1⟩

/-- Witness for C9: owner 1's list and lookup on the mixed store return only
owner-1 rows even though owner 2 stores the same uuid. -/
theorem claim_C9_witness :
    (∀ x ∈ [rowB], x.owner = (1 : Int)) ∧ rowB.owner = (1 : Int) :=
  ⟨(claim_C9_owner_isolation dbMix ⟨1⟩ none none none [rowB] "b" rowB).1
      (by rfl),
   (claim_C9_owner_isolation dbMix ⟨1⟩ none none none [rowB] "b" rowB).2
      (by rfl)⟩

end Sfrs
